import Mathlib

/-!
Verification development for `pvlens-db/python/srlc/download_srlc_data.py`.

The script loads a CSV of FDA safety-labeling-change rows, extracts an
integer `drug_id` from each row's `Link` column via
`int(prd_url.split("&")[1].split("=")[1])`, builds two insertion-ordered
mappings (`drug_id -> url` and `drug_id -> application id`), and then either
downloads every URL to `DATA_PATH + str(drug_id) + ".html"` (with a fixed
sleep, progress prints, and a milestone print every 100 downloads) or
performs a count-only completeness check of the output directory.

Python strings are modelled as Lean `String` / `List Char`; Python `dict`
is modelled as an insertion-ordered association list; fallible operations
(list indexing, `int()` parsing) return `Option`; the side-effecting main
program is modelled as a trace of events.
-/

/-- Model of Python `str.split(sep)` for a single-character separator,
accumulating the current field in reverse. `"".split(sep) = [""]` and a
trailing separator yields a trailing empty field, as in Python. -/
def pySplitAux (sep : Char) : List Char → List Char → List (List Char)
  | [], cur => [cur.reverse]
  | c :: rest, cur =>
    if c = sep then cur.reverse :: pySplitAux sep rest []
    else pySplitAux sep rest (c :: cur)

/-- Model of Python `str.split(sep)` (single-character separator). -/
def pySplit (sep : Char) (l : List Char) : List (List Char) :=
  pySplitAux sep l []

/-- Model of Python `str.strip()`: drop whitespace from both ends. -/
def pyStrip (l : List Char) : List Char :=
  ((l.dropWhile Char.isWhitespace).reverse.dropWhile Char.isWhitespace).reverse

/-- Model of the optional sign at the front of a Python integer literal:
returns the sign as an integer and the remaining characters. -/
def pySign (l : List Char) : Int × List Char :=
  match l with
  | [] => (1, [])
  | c :: r => if c = '+' then (1, r) else if c = '-' then (-1, r) else (1, c :: r)

/-- Validity of the tail of a Python integer literal's digit run:
`prev` records whether the previous character was an underscore (Python
allows single underscores only between digits). -/
def digitRun : Bool → List Char → Bool
  | prev, [] => !prev
  | prev, c :: r =>
    if c = '_' then !prev && digitRun true r
    else c.isDigit && digitRun false r

/-- Validity of the digit part of a Python integer literal: nonempty,
starting with a digit, underscores only between digits. -/
def pyIntDigits (l : List Char) : Bool :=
  match l with
  | [] => false
  | c :: r => c.isDigit && digitRun false r

/-- Numeric value of a list of decimal digit characters. -/
def decValue (l : List Char) : Nat :=
  l.foldl (fun a c => 10 * a + (c.toNat - 48)) 0

/-- Model of Python `int(s)` on the character list of `s`: strip
whitespace, take an optional sign, then require a valid digit run
(underscores between digits allowed); `none` models the `ValueError`. -/
def pyIntL (l : List Char) : Option Int :=
  if pyIntDigits (pySign (pyStrip l)).2 then
    some ((pySign (pyStrip l)).1
      * (decValue ((pySign (pyStrip l)).2.filter (fun c => c != '_')) : Int))
  else
    none

/-- Model of `int(prd_url.split("&")[1].split("=")[1])` from the catalog
build loop: `none` models any raised exception (IndexError from `[1]`,
ValueError from `int`). -/
def extract_drug_id (prd_url : String) : Option Int :=
  match (pySplit '&' prd_url.toList)[1]? with
  | none => none
  | some seg =>
    match (pySplit '=' seg)[1]? with
    | none => none
    | some v => pyIntL v

/-- One record of the input catalog: the two columns the script reads. -/
structure Row where
  app_id : String
  link : String
deriving DecidableEq

/-- Model of a Python `dict` with `Int` keys: an insertion-ordered
association list whose keys are unique by construction. -/
abbrev Dict (V : Type) : Type := List (Int × V)

/-- Keys of a dict, in insertion order (Python `d.keys()`). -/
def dictKeys {V : Type} (d : Dict V) : List Int :=
  d.map (fun p => p.1)

/-- Model of Python `d[k] = v`: updating an existing key keeps its
position, a new key is appended at the end. -/
def dictInsert {V : Type} (d : Dict V) (k : Int) (v : V) : Dict V :=
  if k ∈ dictKeys d then d.map (fun p => if p.1 = k then (k, v) else p)
  else d ++ [(k, v)]

/-- Model of Python `d[k]` lookup, `none` when the key is absent. -/
def dictGet? {V : Type} (d : Dict V) (k : Int) : Option V :=
  (d.find? (fun p => p.1 == k)).map (fun p => p.2)

/-- Model of the catalog build loop of `__main__`: iterate the rows,
extract `drug_id` from each `Link`, and update `drug_links` and
`drug_appid_links` plus the row counter; `none` models the uncaught
exception raised on a malformed link, which aborts the program. -/
def loadCatalog : List Row → Dict String → Dict String → Nat →
    Option (Dict String × Dict String × Nat)
  | [], drug_links, drug_appid_links, counter =>
    some (drug_links, drug_appid_links, counter)
  | r :: rest, drug_links, drug_appid_links, counter =>
    match extract_drug_id r.link with
    | none => none
    | some drug_id =>
      loadCatalog rest (dictInsert drug_links drug_id r.link)
        (dictInsert drug_appid_links drug_id r.app_id) (counter + 1)

/-- The last row of the list whose link extracts to the given id. -/
def lastMatch (id : Int) : List Row → Option Row
  | [] => none
  | r :: rest =>
    match lastMatch id rest with
    | some r' => some r'
    | none => if extract_drug_id r.link = some id then some r else none

/-- Decimal digit characters of a natural number, most significant first
(the digits of Python `str(n)` for `n ≥ 0`). -/
def natDigits (n : Nat) : List Char :=
  if n < 10 then [Char.ofNat (48 + n)]
  else natDigits (n / 10) ++ [Char.ofNat (48 + n % 10)]
decreasing_by exact Nat.div_lt_self (by omega) (by omega)

/-- Character list of Python `str(i)` for an integer `i`. -/
def intDigits (i : Int) : List Char :=
  if i < 0 then '-' :: natDigits i.natAbs else natDigits i.toNat

/-- Model of Python `str(n)` for a natural number. -/
def natStr (n : Nat) : String :=
  String.mk (natDigits n)

/-- Model of Python `str(i)` for an integer. -/
def intStr (i : Int) : String :=
  String.mk (intDigits i)

/-- Observable events of a program run: the HTTP GET of
`requests.get`, the `open(path, 'wb')` that creates or truncates the
output file, one `f.write(chunk)` per written chunk, a console print, a
`time.sleep`, and an `os.listdir`. -/
inductive Ev where
  | get (url : String)
  | fileOpen (path : String)
  | write (path : String) (chunk : List Nat)
  | print (line : String)
  | sleep (seconds : ℚ)
  | listDir (path : String)
deriving DecidableEq

/-- The `chunk_size` argument of `r.iter_content` in `download_file`. -/
def CHUNK_SIZE : Nat := 1024

/-- The fixed inter-request delay of the download loop, in seconds. -/
def WAIT_TIME : ℚ := 0.2

/-- Root of the FDA SRLC resources (module-level constant). -/
def FDA_SRLC_PATH : String := "../../src/main/resources/fda_srlc/"

/-- Directory that receives the downloaded HTML files. -/
def FDA_SRLC_HTML_SRC : String := FDA_SRLC_PATH ++ "html_download/"

/-- The `DATA_PATH` variable of `__main__`. -/
def DATA_PATH : String := FDA_SRLC_HTML_SRC

/-- Model of the write loop of `download_file`: iterate the streamed
chunks, skipping empty ones (`if chunk:`), appending the others to the
file contents; also records one write event per written chunk. -/
def writeLoop (path : String) (chunks : List (List Nat)) :
    List Nat × List Ev :=
  chunks.foldl
    (fun acc c =>
      if c = [] then acc else (acc.1 ++ c, acc.2 ++ [Ev.write path c]))
    ([], [])

/-- Model of `download_file(url, local_filename)` given the chunks that
`r.iter_content(chunk_size=1024)` yields for the response: returns the
value returned by the function (its `local_filename` argument), the final
contents of the written file, and the event trace — the GET, then the
`open(local_filename, 'wb')` (create or truncate), then the writes. -/
def download_file (url : String) (local_filename : String)
    (chunks : List (List Nat)) : String × List Nat × List Ev :=
  let r := writeLoop local_filename chunks
  (local_filename, r.1,
    Ev.get url :: Ev.fileOpen local_filename :: r.2)

/-- Output path for one drug id: `DATA_PATH + str(drug_id) + ".html"`. -/
def htmlPath (drug_id : Int) : String :=
  DATA_PATH ++ intStr drug_id ++ ".html"

/-- The `prd_url = drug_links[drug_id]` assignment of the download loop
(the default `""` is never used when the key comes from the dict
itself). -/
def urlOf (drug_links : Dict String) (drug_id : Int) : String :=
  (dictGet? drug_links drug_id).getD ""

/-- Model of the download loop of `__main__` (DOWNLOAD_DATA branch):
iterate the keys of `drug_links`, download each URL to
`DATA_PATH + str(drug_id) + ".html"`, print a progress line, sleep
`WAIT_TIME`, bump the counter and print a milestone line every 100
downloads. `resp` gives the chunks the server streams for each URL. -/
def fetchLoop (resp : String → List (List Nat)) (drug_links : Dict String) :
    List Int → Nat → List Ev
  | [], _ => []
  | drug_id :: rest, counter =>
    (download_file (urlOf drug_links drug_id) (htmlPath drug_id)
        (resp (urlOf drug_links drug_id))).2.2
      ++ [Ev.print ("Saving Product Label Change: " ++ intStr drug_id
            ++ " URL: " ++ urlOf drug_links drug_id)]
      ++ [Ev.sleep WAIT_TIME]
      ++ (if (counter + 1) % 100 = 0 then [Ev.print (">> " ++ natStr (counter + 1))]
          else [])
      ++ fetchLoop resp drug_links rest (counter + 1)

/-- Paths of the files opened (created or truncated) in a trace. -/
def opensOf (tr : List Ev) : List String :=
  tr.filterMap (fun e =>
    match e with
    | Ev.fileOpen p => some p
    | _ => none)

/-- Selects the network, file-write and sleep events of a trace. -/
def isNetSleep (e : Ev) : Bool :=
  match e with
  | Ev.get _ => true
  | Ev.write _ _ => true
  | Ev.sleep _ => true
  | _ => false

/-- Selects the console prints of a trace. -/
def isPrintEv (e : Ev) : Bool :=
  match e with
  | Ev.print _ => true
  | _ => false

/-- The condition the completeness check tests: `expected == found` with
`expected = len(drug_links.keys())` and `found = len(all_files)`. -/
def checkerMatch (all_files : List String) (drug_links : Dict String) : Bool :=
  (dictKeys drug_links).length == all_files.length

/-- Model of the `else` branch of `__main__` (verify-only mode): compare
the number of directory entries with the number of catalog keys and
print the corresponding report. -/
def checker (all_files : List String) (drug_links : Dict String) : List Ev :=
  if checkerMatch all_files drug_links then
    [Ev.print ("Total files: " ++ natStr all_files.length),
     Ev.print ("Skippping, data already downloaded!")]
  else
    [Ev.print ("There are some files missing, expected: "
        ++ natStr (dictKeys drug_links).length
        ++ " Found: " ++ natStr all_files.length)]

/-- Model of `__main__`: build the catalog, and on success print the
diagnostics, list the output directory, run either the download loop or
the completeness check, and print the final line. The boolean records
whether the run completed (`false` models the uncaught exception of a
malformed link, which leaves an empty event trace because the catalog
loop performs no I/O event before the abort). -/
def runMain (rows : List Row) (resp : String → List (List Nat))
    (dirFiles : List String) (downloadData : Bool) : List Ev × Bool :=
  match loadCatalog rows [] [] 0 with
  | none => ([], false)
  | some (drug_links, drug_appid_links, counter) =>
    let header := [Ev.print ("Total links: " ++ natStr counter),
      Ev.print ("Unique entries: " ++ natStr (dictKeys drug_links).length),
      Ev.print ("Unique entries: " ++ natStr (dictKeys drug_appid_links).length)]
    let body :=
      if downloadData then
        Ev.listDir DATA_PATH :: fetchLoop resp drug_links (dictKeys drug_links) 0
      else
        Ev.listDir DATA_PATH :: checker dirFiles drug_links
    (header ++ body ++ [Ev.print ("SRLC downloads complete!")], true)

/-! ## The write loop of `download_file` -/

theorem writeLoop_go (path : String) (chunks : List (List Nat)) :
    ∀ (a : List Nat) (b : List Ev),
      chunks.foldl
        (fun acc c =>
          if c = [] then acc else (acc.1 ++ c, acc.2 ++ [Ev.write path c]))
        (a, b)
      = (a ++ (chunks.filter (fun c => c ≠ [])).flatten,
         b ++ (chunks.filter (fun c => c ≠ [])).map (Ev.write path)) := by
  induction chunks with
  | nil => intro a b; simp
  | cons c rest ih =>
    intro a b
    by_cases hc : c = []
    · subst hc; simpa using ih a b
    · simp [hc, ih, List.append_assoc]

theorem writeLoop_contents (path : String) (chunks : List (List Nat)) :
    (writeLoop path chunks).1 = (chunks.filter (fun c => c ≠ [])).flatten := by
  unfold writeLoop
  rw [writeLoop_go]
  simp

theorem writeLoop_events (path : String) (chunks : List (List Nat)) :
    (writeLoop path chunks).2
      = (chunks.filter (fun c => c ≠ [])).map (Ev.write path) := by
  unfold writeLoop
  rw [writeLoop_go]
  simp

/-- C4: the bytes `download_file` writes are exactly the concatenation of
the response's non-empty chunks (each read at chunk size 1024), in order;
empty chunks are skipped, so the final file byte-length is the sum of the
non-empty chunk lengths. -/
theorem claim_c4 (url path : String) (chunks : List (List Nat))
    (h : ∀ c ∈ chunks, c.length ≤ CHUNK_SIZE) :
    (download_file url path chunks).2.1
        = (chunks.filter (fun c => c ≠ [])).flatten
    ∧ (download_file url path chunks).2.1.length
        = ((chunks.filter (fun c => c ≠ [])).map List.length).sum := by
  refine ⟨writeLoop_contents path chunks, ?_⟩
  show (writeLoop path chunks).1.length = _
  rw [writeLoop_contents, List.length_flatten]

theorem claim_c4_witness :
    (∀ c ∈ ([[10, 20], [], [30]] : List (List Nat)), c.length ≤ CHUNK_SIZE)
    ∧ ((download_file ("u") ("p") [[10, 20], [], [30]]).2.1
          = (([[10, 20], [], [30]] : List (List Nat)).filter
              (fun c => c ≠ [])).flatten
       ∧ (download_file ("u") ("p") [[10, 20], [], [30]]).2.1.length
          = ((([[10, 20], [], [30]] : List (List Nat)).filter
              (fun c => c ≠ [])).map List.length).sum) :=
  ⟨by decide, claim_c4 ("u") ("p") [[10, 20], [], [30]] (by decide)⟩

/-- C10: `download_file` opens (creating or truncating) the output file
right after the GET and before any chunk is written, and returns its
`local_filename` argument unchanged; for a response whose chunks are all
empty the file is still opened and its final contents are empty. -/
theorem claim_c10 (url path : String) (chunks chunksE : List (List Nat))
    (hE : ∀ c ∈ chunksE, c = []) :
    (download_file url path chunks).1 = path
    ∧ (download_file url path chunks).2.2
        = Ev.get url :: Ev.fileOpen path
            :: (chunks.filter (fun c => c ≠ [])).map (Ev.write path)
    ∧ Ev.fileOpen path ∈ (download_file url path chunksE).2.2
    ∧ (download_file url path chunksE).2.1 = [] := by
  refine ⟨rfl, ?_, ?_, ?_⟩
  · show Ev.get url :: Ev.fileOpen path :: (writeLoop path chunks).2 = _
    rw [writeLoop_events]
  · show Ev.fileOpen path ∈ Ev.get url :: Ev.fileOpen path :: _
    exact List.mem_cons_of_mem _ (List.mem_cons_self _ _)
  · show (writeLoop path chunksE).1 = []
    rw [writeLoop_contents]
    have : chunksE.filter (fun c => c ≠ []) = [] := by
      rw [List.filter_eq_nil_iff]
      intro c hc
      simp [hE c hc]
    rw [this, List.flatten_nil]

theorem claim_c10_witness :
    (∀ c ∈ ([[], []] : List (List Nat)), c = [])
    ∧ ((download_file ("u") ("p") [[7], []]).1 = "p"
       ∧ (download_file ("u") ("p") [[7], []]).2.2
          = Ev.get ("u") :: Ev.fileOpen ("p")
              :: (([[7], []] : List (List Nat)).filter
                  (fun c => c ≠ [])).map (Ev.write ("p"))
       ∧ Ev.fileOpen ("p") ∈ (download_file ("u") ("p") [[], []]).2.2
       ∧ (download_file ("u") ("p") [[], []]).2.1 = []) :=
  ⟨by decide, claim_c10 ("u") ("p") [[7], []] [[], []] (by decide)⟩

/-! ## Character-level facts about the Python `int` model -/

theorem char_ne_of_isDigit (c : Char) (h : c.isDigit = true) (d : Char)
    (hd : d.isDigit = false) : c ≠ d := by
  intro he
  subst he
  rw [h] at hd
  exact Bool.noConfusion hd

theorem isWhitespace_false_of_isDigit (c : Char) (h : c.isDigit = true) :
    c.isWhitespace = false := by
  simp only [Char.isDigit, Bool.and_eq_true, decide_eq_true_eq] at h
  simp only [Char.isWhitespace, Bool.or_eq_false_iff, decide_eq_false_iff_not]
  refine ⟨⟨⟨?_, ?_⟩, ?_⟩, ?_⟩ <;> (rintro rfl; exact absurd h.1 (by decide))

theorem dropWhile_eq_self_of_all {α : Type} (p : α → Bool) (l : List α)
    (h : ∀ c ∈ l, p c = false) : l.dropWhile p = l := by
  cases l with
  | nil => rfl
  | cons x r => simp [List.dropWhile_cons, h x (List.mem_cons_self x r)]

theorem mem_dropWhile_of_mem {α : Type} (p : α → Bool) (l : List α) (c : α)
    (hm : c ∈ l) (hc : p c = false) : c ∈ l.dropWhile p := by
  induction l with
  | nil => cases hm
  | cons x r ih =>
    rw [List.dropWhile_cons]
    by_cases hx : p x = true
    · rw [if_pos hx]
      rcases List.mem_cons.mp hm with h | h
      · subst h; rw [hx] at hc; exact absurd hc (by simp)
      · exact ih h
    · rw [if_neg hx]; exact hm

theorem pyStrip_of_all (l : List Char)
    (h : ∀ c ∈ l, c.isWhitespace = false) : pyStrip l = l := by
  unfold pyStrip
  rw [dropWhile_eq_self_of_all _ _ h]
  rw [dropWhile_eq_self_of_all]
  · exact List.reverse_reverse l
  · intro c hc; exact h c (List.mem_reverse.mp hc)

theorem mem_pyStrip (l : List Char) (c : Char) (hm : c ∈ l)
    (hc : c.isWhitespace = false) : c ∈ pyStrip l := by
  unfold pyStrip
  rw [List.mem_reverse]
  exact mem_dropWhile_of_mem _ _ _
    (List.mem_reverse.mpr (mem_dropWhile_of_mem _ _ _ hm hc)) hc

theorem pySign_digits (x : Char) (r : List Char) (hx : x.isDigit = true) :
    pySign (x :: r) = (1, x :: r) := by
  simp only [pySign]
  rw [if_neg (char_ne_of_isDigit x hx '+' (by decide)),
    if_neg (char_ne_of_isDigit x hx '-' (by decide))]

theorem digitRun_of_digits (l : List Char)
    (h : ∀ c ∈ l, c.isDigit = true) : digitRun false l = true := by
  induction l with
  | nil => rfl
  | cons x r ih =>
    have hx := h x (List.mem_cons_self x r)
    simp only [digitRun]
    rw [if_neg (char_ne_of_isDigit x hx '_' (by decide)), hx, Bool.true_and]
    exact ih (fun c hc => h c (List.mem_cons_of_mem x hc))

theorem digitRun_false_of_bad (l : List Char) (c0 : Char) (hd : c0.isDigit = false)
    (hu : c0 ≠ '_') : ∀ b : Bool, c0 ∈ l → digitRun b l = false := by
  induction l with
  | nil => intro b hm; cases hm
  | cons x r ih =>
    intro b hm
    simp only [digitRun]
    rcases List.mem_cons.mp hm with h | h
    · subst h
      rw [if_neg hu, hd, Bool.false_and]
    · by_cases hx : x = '_'
      · rw [if_pos hx, ih true h, Bool.and_false]
      · rw [if_neg hx, ih false h, Bool.and_false]

theorem pyIntDigits_of_digits (l : List Char) (hne : l ≠ [])
    (h : ∀ c ∈ l, c.isDigit = true) : pyIntDigits l = true := by
  cases l with
  | nil => exact absurd rfl hne
  | cons x r =>
    simp only [pyIntDigits]
    rw [h x (List.mem_cons_self x r), Bool.true_and]
    exact digitRun_of_digits r (fun c hc => h c (List.mem_cons_of_mem x hc))

theorem pyIntDigits_false_of_bad (l : List Char) (c0 : Char) (hm : c0 ∈ l)
    (hd : c0.isDigit = false) (hu : c0 ≠ '_') : pyIntDigits l = false := by
  cases l with
  | nil => rfl
  | cons x r =>
    simp only [pyIntDigits]
    rcases List.mem_cons.mp hm with h | h
    · subst h; rw [hd, Bool.false_and]
    · rw [digitRun_false_of_bad r c0 hd hu false h, Bool.and_false]

theorem filter_underscore_of_digits (l : List Char)
    (h : ∀ c ∈ l, c.isDigit = true) : l.filter (fun c => c != '_') = l := by
  rw [List.filter_eq_self]
  intro c hc
  rw [bne_iff_ne]
  exact char_ne_of_isDigit c (h c hc) '_' (by decide)

theorem pyIntL_digits (l : List Char) (hne : l ≠ [])
    (h : ∀ c ∈ l, c.isDigit = true) : pyIntL l = some ((decValue l : Int)) := by
  cases l with
  | nil => exact absurd rfl hne
  | cons x r =>
    have hstrip : pyStrip (x :: r) = x :: r :=
      pyStrip_of_all _ (fun c hc => isWhitespace_false_of_isDigit c (h c hc))
    have hsign : pySign (pyStrip (x :: r)) = (1, x :: r) := by
      rw [hstrip]
      exact pySign_digits x r (h x (List.mem_cons_self x r))
    unfold pyIntL
    rw [hsign]
    show (if pyIntDigits (x :: r) = true then
        some (1 * (decValue ((x :: r).filter (fun c => c != '_')) : Int))
      else none) = _
    rw [pyIntDigits_of_digits _ hne h, if_pos rfl,
      filter_underscore_of_digits _ h, one_mul]

theorem pyIntL_neg_digits (l : List Char) (hne : l ≠ [])
    (h : ∀ c ∈ l, c.isDigit = true) :
    pyIntL ('-' :: l) = some (-(decValue l : Int)) := by
  have hstrip : pyStrip ('-' :: l) = '-' :: l := by
    refine pyStrip_of_all _ ?_
    intro c hc
    rcases List.mem_cons.mp hc with hx | hx
    · subst hx; decide
    · exact isWhitespace_false_of_isDigit c (h c hx)
  have hsign : pySign (pyStrip ('-' :: l)) = (-1, l) := by
    rw [hstrip]
    simp only [pySign]
    rw [if_neg (by decide : ¬('-' : Char) = '+')]
    simp
  unfold pyIntL
  rw [hsign]
  show (if pyIntDigits l = true then
      some (-1 * (decValue (l.filter (fun c => c != '_')) : Int))
    else none) = _
  rw [pyIntDigits_of_digits _ hne h, if_pos rfl,
    filter_underscore_of_digits _ h, neg_one_mul]

theorem pyIntL_none_of_bad (l : List Char) (c0 : Char) (hm : c0 ∈ l)
    (hd : c0.isDigit = false) (hu : c0 ≠ '_') (hp : c0 ≠ '+') (hmn : c0 ≠ '-')
    (hw : c0.isWhitespace = false) : pyIntL l = none := by
  have h1 : c0 ∈ pyStrip l := mem_pyStrip l c0 hm hw
  have h2 : c0 ∈ (pySign (pyStrip l)).2 := by
    cases hps : pyStrip l with
    | nil => rw [hps] at h1; cases h1
    | cons x r =>
      rw [hps] at h1
      simp only [pySign]
      by_cases hx1 : x = '+'
      · rw [if_pos hx1]
        rcases List.mem_cons.mp h1 with h | h
        · subst hx1; exact absurd h hp
        · exact h
      · rw [if_neg hx1]
        by_cases hx2 : x = '-'
        · rw [if_pos hx2]
          rcases List.mem_cons.mp h1 with h | h
          · subst hx2; exact absurd h hmn
          · exact h
        · rw [if_neg hx2]
          exact h1
  unfold pyIntL
  rw [pyIntDigits_false_of_bad _ c0 h2 hd hu]
  simp

/-- C1: for a `Link` with at least two `&`-delimited segments whose second
segment carries a decimal integer between its first and second `=`, the
extracted `drug_id` is exactly that integer (positive and negative
canonical forms); for a malformed link — fewer than two `&`-segments, a
second segment with no `=`, or a non-numeric value after the first `=`
(in particular one containing any character that is not a digit, sign,
underscore or whitespace) — extraction fails with `none` (the raised
exception). -/
theorem claim_c1 (link : String) :
    (∀ seg v, (pySplit '&' link.toList)[1]? = some seg →
        (pySplit '=' seg)[1]? = some v →
        ((v ≠ [] → (∀ c ∈ v, c.isDigit = true) →
            extract_drug_id link = some ((decValue v : Int)))
         ∧ (∀ ds, v = '-' :: ds → ds ≠ [] → (∀ c ∈ ds, c.isDigit = true) →
            extract_drug_id link = some (-(decValue ds : Int)))
         ∧ (pyIntL v = none → extract_drug_id link = none)
         ∧ ((∃ c ∈ v, c.isDigit = false ∧ c ≠ '_' ∧ c ≠ '+' ∧ c ≠ '-'
              ∧ c.isWhitespace = false) → pyIntL v = none)))
    ∧ ((pySplit '&' link.toList).length < 2 → extract_drug_id link = none)
    ∧ (∀ seg, (pySplit '&' link.toList)[1]? = some seg →
        (pySplit '=' seg)[1]? = none → extract_drug_id link = none) := by
  refine ⟨?_, ?_, ?_⟩
  · intro seg v h1 h2
    have hx : extract_drug_id link = pyIntL v := by
      unfold extract_drug_id
      simp only [h1, h2]
    refine ⟨?_, ?_, ?_, ?_⟩
    · intro hne hdig
      rw [hx]
      exact pyIntL_digits v hne hdig
    · intro ds hds hne hdig
      rw [hx, hds]
      exact pyIntL_neg_digits ds hne hdig
    · intro hnone
      rw [hx, hnone]
    · rintro ⟨c, hc, hd, hu, hp, hmn, hw⟩
      exact pyIntL_none_of_bad v c hc hd hu hp hmn hw
  · intro hlen
    have h1 : (pySplit '&' link.toList)[1]? = none :=
      List.getElem?_eq_none (by omega)
    unfold extract_drug_id
    simp only [h1]
  · intro seg h1 h2
    unfold extract_drug_id
    simp only [h1, h2]

theorem claim_c1_witness :
    ((pySplit '&' ("a&b=42").toList)[1]? = some (("b=42").toList)
     ∧ (pySplit '=' (("b=42").toList))[1]? = some (("42").toList)
     ∧ ("42").toList ≠ [] ∧ (∀ c ∈ ("42").toList, c.isDigit = true))
    ∧ extract_drug_id ("a&b=42") = some ((decValue (("42").toList) : Int)) :=
  ⟨⟨by decide, by decide, by decide, by decide⟩,
   ((claim_c1 ("a&b=42")).1 (("b=42").toList) (("42").toList)
      (by decide) (by decide)).1 (by decide) (by decide)⟩

/-! ## Dictionary lemmas -/

theorem find?_update {V : Type} (d : Dict V) (k : Int) (v : V)
    (hk : k ∈ dictKeys d) :
    (d.map (fun p => if p.1 = k then (k, v) else p)).find?
      (fun p => p.1 == k) = some (k, v) := by
  induction d with
  | nil => exact absurd hk (by simp [dictKeys])
  | cons p rest ih =>
    by_cases hp : p.1 = k
    · simp only [List.map_cons, if_pos hp]
      exact List.find?_cons_of_pos _ (by simp)
    · simp only [List.map_cons, if_neg hp]
      rw [List.find?_cons_of_neg _ (by simp [hp])]
      apply ih
      have hkk : k = p.1 ∨ k ∈ dictKeys rest := by
        simpa [dictKeys] using hk
      rcases hkk with h | h
      · exact absurd h.symm hp
      · exact h

theorem find?_update_other {V : Type} (d : Dict V) (k k' : Int) (v : V)
    (hne : k' ≠ k) :
    (d.map (fun p => if p.1 = k then (k, v) else p)).find?
      (fun p => p.1 == k') = d.find? (fun p => p.1 == k') := by
  induction d with
  | nil => rfl
  | cons p rest ih =>
    by_cases hp : p.1 = k
    · simp only [List.map_cons, if_pos hp]
      rw [List.find?_cons_of_neg _ (by simp [Ne.symm hne]),
        List.find?_cons_of_neg _ (by simp [hp, Ne.symm hne])]
      exact ih
    · simp only [List.map_cons, if_neg hp]
      by_cases hp' : p.1 = k'
      · rw [List.find?_cons_of_pos _ (by simp [hp']),
          List.find?_cons_of_pos _ (by simp [hp'])]
      · rw [List.find?_cons_of_neg _ (by simp [hp']),
          List.find?_cons_of_neg _ (by simp [hp'])]
        exact ih

theorem find?_none_of_not_mem {V : Type} (d : Dict V) (k : Int)
    (hk : k ∉ dictKeys d) : d.find? (fun p => p.1 == k) = none := by
  induction d with
  | nil => rfl
  | cons p rest ih =>
    have h1 : ¬(k = p.1 ∨ k ∈ dictKeys rest) := by
      intro h
      exact hk (by simpa [dictKeys] using h)
    push_neg at h1
    rw [List.find?_cons_of_neg _
      (by simp only [beq_iff_eq]; exact fun h => h1.1 h.symm)]
    exact ih h1.2

theorem dictGet?_insert_self {V : Type} (d : Dict V) (k : Int) (v : V) :
    dictGet? (dictInsert d k v) k = some v := by
  unfold dictInsert dictGet?
  by_cases hk : k ∈ dictKeys d
  · rw [if_pos hk, find?_update d k v hk]
    rfl
  · rw [if_neg hk, List.find?_append, find?_none_of_not_mem d k hk]
    simp

theorem dictGet?_insert_other {V : Type} (d : Dict V) (k k' : Int) (v : V)
    (hne : k' ≠ k) : dictGet? (dictInsert d k v) k' = dictGet? d k' := by
  unfold dictInsert dictGet?
  by_cases hk : k ∈ dictKeys d
  · rw [if_pos hk, find?_update_other d k k' v hne]
  · rw [if_neg hk, List.find?_append]
    have h2 : List.find? (fun p => p.1 == k') [(k, v)] = none := by
      simp [Ne.symm hne]
    rw [h2]
    simp

theorem keys_update {V : Type} (d : Dict V) (k : Int) (v : V) :
    dictKeys (d.map (fun p => if p.1 = k then (k, v) else p)) = dictKeys d := by
  induction d with
  | nil => rfl
  | cons p rest ih =>
    unfold dictKeys at *
    by_cases hp : p.1 = k
    · simp only [List.map_cons, if_pos hp, ih]
      rw [hp]
    · simp only [List.map_cons, if_neg hp, ih]

theorem dictKeys_insert {V : Type} (d : Dict V) (k : Int) (v : V) :
    dictKeys (dictInsert d k v)
      = if k ∈ dictKeys d then dictKeys d else dictKeys d ++ [k] := by
  unfold dictInsert
  by_cases hk : k ∈ dictKeys d
  · rw [if_pos hk, if_pos hk, keys_update]
  · rw [if_neg hk, if_neg hk]
    unfold dictKeys
    simp

theorem nodup_dictKeys_insert {V : Type} (d : Dict V) (k : Int) (v : V)
    (h : (dictKeys d).Nodup) : (dictKeys (dictInsert d k v)).Nodup := by
  rw [dictKeys_insert]
  by_cases hk : k ∈ dictKeys d
  · rw [if_pos hk]; exact h
  · rw [if_neg hk]
    refine List.Nodup.append h (List.nodup_singleton k) ?_
    intro a ha hb
    rw [List.mem_singleton] at hb
    subst hb
    exact hk ha

theorem mem_dictKeys_iff {V : Type} (d : Dict V) (k : Int) :
    k ∈ dictKeys d ↔ (dictGet? d k).isSome := by
  unfold dictGet? dictKeys
  rw [Option.isSome_map', List.find?_isSome]
  constructor
  · intro h
    rcases List.mem_map.mp h with ⟨p, hp, he⟩
    exact ⟨p, hp, by simp [he]⟩
  · rintro ⟨p, hp, he⟩
    exact List.mem_map.mpr ⟨p, hp, beq_iff_eq.mp he⟩

theorem length_filter_key {V : Type} (d : Dict V) (k : Int)
    (hnd : (dictKeys d).Nodup) (hk : k ∈ dictKeys d) :
    (d.filter (fun p => p.1 = k)).length = 1 := by
  have h1 : (d.filter (fun p => p.1 = k)).length
      = List.countP (fun p => decide (p.1 = k)) d := by
    rw [List.countP_eq_length_filter]
  have h2 : List.count k (dictKeys d)
      = List.countP (fun p => decide (p.1 = k)) d := by
    unfold dictKeys
    rw [List.count, List.countP_map]
    refine List.countP_congr ?_
    intro p _
    simp [Function.comp]
  have h3 : List.count k (dictKeys d) ≤ 1 :=
    List.nodup_iff_count_le_one.mp hnd k
  have h4 : 0 < List.count k (dictKeys d) := List.count_pos_iff.mpr hk
  omega

/-! ## Catalog lemmas -/

theorem loadCatalog_none (rows : List Row) :
    ∀ (dl dal : Dict String) (c : Nat),
      (∃ r ∈ rows, extract_drug_id r.link = none) →
      loadCatalog rows dl dal c = none := by
  induction rows with
  | nil => rintro dl dal c ⟨r, hr, _⟩; cases hr
  | cons r0 rest ih =>
    rintro dl dal c ⟨r, hr, hx⟩
    simp only [loadCatalog]
    rcases List.mem_cons.mp hr with h | h
    · subst h
      simp only [hx]
    · cases hx0 : extract_drug_id r0.link with
      | none => rfl
      | some i => exact ih _ _ _ ⟨r, h, hx⟩

theorem loadCatalog_some (rows : List Row) :
    ∀ (dl dal : Dict String) (c : Nat),
      (∀ r ∈ rows, (extract_drug_id r.link).isSome) →
      ∃ out, loadCatalog rows dl dal c = some out := by
  induction rows with
  | nil => intro dl dal c _; exact ⟨(dl, dal, c), rfl⟩
  | cons r0 rest ih =>
    intro dl dal c h
    have h0 := h r0 (List.mem_cons_self r0 rest)
    cases hx0 : extract_drug_id r0.link with
    | none => rw [hx0] at h0; cases h0
    | some i =>
      simp only [loadCatalog, hx0]
      exact ih _ _ _ (fun r hr => h r (List.mem_cons_of_mem r0 hr))

theorem loadCatalog_get (rows : List Row) :
    ∀ (dl0 dal0 : Dict String) (c0 : Nat) (dl dal : Dict String) (c : Nat),
      loadCatalog rows dl0 dal0 c0 = some (dl, dal, c) →
      ∀ id : Int,
        dictGet? dl id = (match lastMatch id rows with
          | some r => some r.link
          | none => dictGet? dl0 id)
        ∧ dictGet? dal id = (match lastMatch id rows with
          | some r => some r.app_id
          | none => dictGet? dal0 id) := by
  induction rows with
  | nil =>
    intro dl0 dal0 c0 dl dal c h id
    simp only [loadCatalog, Option.some.injEq, Prod.mk.injEq] at h
    obtain ⟨h1, h3, _⟩ := h
    subst h1; subst h3
    exact ⟨rfl, rfl⟩
  | cons r rest ih =>
    intro dl0 dal0 c0 dl dal c h id
    simp only [loadCatalog] at h
    cases hx : extract_drug_id r.link with
    | none => rw [hx] at h; simp at h
    | some i =>
      simp only [hx] at h
      have hrec := ih _ _ _ _ _ _ h id
      simp only [lastMatch]
      cases hlm : lastMatch id rest with
      | some r' =>
        simp only [hlm] at hrec
        simpa using hrec
      | none =>
        simp only [hlm] at hrec
        by_cases hid : i = id
        · subst hid
          simp only [hx, if_pos rfl]
          rw [hrec.1, hrec.2, dictGet?_insert_self, dictGet?_insert_self]
          exact ⟨rfl, rfl⟩
        · have hne : ¬extract_drug_id r.link = some id := by
            rw [hx]; simp [hid]
          simp only [if_neg hne]
          rw [hrec.1, hrec.2, dictGet?_insert_other _ _ _ _ (Ne.symm hid),
            dictGet?_insert_other _ _ _ _ (Ne.symm hid)]
          exact ⟨rfl, rfl⟩

theorem loadCatalog_keys (rows : List Row) :
    ∀ (dl0 dal0 : Dict String) (c0 : Nat) (dl dal : Dict String) (c : Nat),
      dictKeys dl0 = dictKeys dal0 →
      loadCatalog rows dl0 dal0 c0 = some (dl, dal, c) →
      dictKeys dl = dictKeys dal := by
  induction rows with
  | nil =>
    intro dl0 dal0 c0 dl dal c hk h
    simp only [loadCatalog, Option.some.injEq, Prod.mk.injEq] at h
    obtain ⟨h1, h3, _⟩ := h
    subst h1; subst h3
    exact hk
  | cons r rest ih =>
    intro dl0 dal0 c0 dl dal c hk h
    simp only [loadCatalog] at h
    cases hx : extract_drug_id r.link with
    | none => rw [hx] at h; simp at h
    | some i =>
      simp only [hx] at h
      refine ih _ _ _ _ _ _ ?_ h
      rw [dictKeys_insert, dictKeys_insert, hk]

theorem loadCatalog_nodup (rows : List Row) :
    ∀ (dl0 dal0 : Dict String) (c0 : Nat) (dl dal : Dict String) (c : Nat),
      (dictKeys dl0).Nodup →
      loadCatalog rows dl0 dal0 c0 = some (dl, dal, c) →
      (dictKeys dl).Nodup := by
  induction rows with
  | nil =>
    intro dl0 dal0 c0 dl dal c hnd h
    simp only [loadCatalog, Option.some.injEq, Prod.mk.injEq] at h
    obtain ⟨h1, _, _⟩ := h
    subst h1
    exact hnd
  | cons r rest ih =>
    intro dl0 dal0 c0 dl dal c hnd h
    simp only [loadCatalog] at h
    cases hx : extract_drug_id r.link with
    | none => rw [hx] at h; simp at h
    | some i =>
      simp only [hx] at h
      exact ih _ _ _ _ _ _ (nodup_dictKeys_insert _ _ _ hnd) h

theorem lastMatch_isSome (rows : List Row) (id : Int) :
    (∃ r ∈ rows, extract_drug_id r.link = some id) →
    (lastMatch id rows).isSome := by
  induction rows with
  | nil => rintro ⟨r, hr, _⟩; cases hr
  | cons r0 rest ih =>
    rintro ⟨r, hr, hx⟩
    simp only [lastMatch]
    cases hlm : lastMatch id rest with
    | some r' => rfl
    | none =>
      rcases List.mem_cons.mp hr with h | h
      · subst h
        rw [if_pos hx]
        rfl
      · have := ih ⟨r, h, hx⟩
        rw [hlm] at this
        cases this

/-- C2: when two or more rows of a parsable catalog share one extracted
drug id, the catalog build succeeds anyway (the collision raises no
error), the URL map holds exactly one entry for that id, and both that
entry's URL and the application id recorded for it come from the last
matching row in iteration order. -/
theorem claim_c2 (rows : List Row) (id : Int)
    (hsome : ∀ r ∈ rows, (extract_drug_id r.link).isSome)
    (hdup : 2 ≤ (rows.filter (fun r => extract_drug_id r.link = some id)).length) :
    ∃ dl dal c, loadCatalog rows [] [] 0 = some (dl, dal, c)
      ∧ ∃ r, lastMatch id rows = some r
        ∧ dictGet? dl id = some r.link
        ∧ dictGet? dal id = some r.app_id
        ∧ (dl.filter (fun p => p.1 = id)).length = 1 := by
  obtain ⟨r0, hr0⟩ := List.exists_mem_of_length_pos
    (show 0 < (rows.filter (fun r => extract_drug_id r.link = some id)).length
      by omega)
  rw [List.mem_filter] at hr0
  have hex : ∃ r ∈ rows, extract_drug_id r.link = some id :=
    ⟨r0, hr0.1, by simpa using hr0.2⟩
  obtain ⟨⟨dl, dal, c⟩, hload⟩ := loadCatalog_some rows [] [] 0 hsome
  refine ⟨dl, dal, c, hload, ?_⟩
  have hlm := lastMatch_isSome rows id hex
  obtain ⟨r, hr⟩ := Option.isSome_iff_exists.mp hlm
  refine ⟨r, hr, ?_, ?_, ?_⟩
  · have := (loadCatalog_get rows [] [] 0 dl dal c hload id).1
    rw [hr] at this
    exact this
  · have := (loadCatalog_get rows [] [] 0 dl dal c hload id).2
    rw [hr] at this
    exact this
  · have hnd : (dictKeys dl).Nodup :=
      loadCatalog_nodup rows [] [] 0 dl dal c (by simp [dictKeys]) hload
    have hmem : id ∈ dictKeys dl := by
      rw [mem_dictKeys_iff]
      have := (loadCatalog_get rows [] [] 0 dl dal c hload id).1
      rw [hr] at this
      rw [this]
      rfl
    exact length_filter_key dl id hnd hmem

theorem claim_c2_witness :
    (∀ r ∈ [Row.mk ("A1") ("http://x/y&id=42&z=1"),
        Row.mk ("A2") ("http://x/y&id=42&z=2"),
        Row.mk ("A3") ("http://x/y&id=7&z=9")],
      (extract_drug_id r.link).isSome)
    ∧ (2 ≤ (([Row.mk ("A1") ("http://x/y&id=42&z=1"),
        Row.mk ("A2") ("http://x/y&id=42&z=2"),
        Row.mk ("A3") ("http://x/y&id=7&z=9")].filter
          (fun r => extract_drug_id r.link = some 42)).length))
    ∧ (∃ dl dal c,
        loadCatalog [Row.mk ("A1") ("http://x/y&id=42&z=1"),
          Row.mk ("A2") ("http://x/y&id=42&z=2"),
          Row.mk ("A3") ("http://x/y&id=7&z=9")] [] [] 0 = some (dl, dal, c)
        ∧ ∃ r, lastMatch 42 [Row.mk ("A1") ("http://x/y&id=42&z=1"),
            Row.mk ("A2") ("http://x/y&id=42&z=2"),
            Row.mk ("A3") ("http://x/y&id=7&z=9")] = some r
          ∧ dictGet? dl 42 = some r.link
          ∧ dictGet? dal 42 = some r.app_id
          ∧ (dl.filter (fun p => p.1 = 42)).length = 1) :=
  ⟨by decide, by decide,
   claim_c2 [Row.mk ("A1") ("http://x/y&id=42&z=1"),
     Row.mk ("A2") ("http://x/y&id=42&z=2"),
     Row.mk ("A3") ("http://x/y&id=7&z=9")] 42 (by decide) (by decide)⟩

/-- C9: starting from any pair of dictionaries with equal key lists (in
particular the empty ones at the start of the loop, and any intermediate
state after a prefix of the rows), a successful catalog load yields a
URL map and an application-id map with exactly the same key list, since
each row updates both under the same key with the same collision
policy. -/
theorem claim_c9 (rows : List Row) (dl0 dal0 : Dict String) (c0 : Nat)
    (dl dal : Dict String) (c : Nat)
    (hk : dictKeys dl0 = dictKeys dal0)
    (h : loadCatalog rows dl0 dal0 c0 = some (dl, dal, c)) :
    dictKeys dl = dictKeys dal :=
  loadCatalog_keys rows dl0 dal0 c0 dl dal c hk h

theorem claim_c9_witness :
    (dictKeys ([] : Dict String) = dictKeys ([] : Dict String)
     ∧ loadCatalog [Row.mk ("A1") ("http://x/y&id=42&z=1"),
         Row.mk ("A3") ("http://x/y&id=7&z=9")] [] [] 0
       = some ([(42, "http://x/y&id=42&z=1"), (7, "http://x/y&id=7&z=9")],
           [(42, "A1"), (7, "A3")], 2))
    ∧ dictKeys [((42 : Int), "http://x/y&id=42&z=1"), (7, "http://x/y&id=7&z=9")]
      = dictKeys [((42 : Int), "A1"), (7, "A3")] :=
  ⟨⟨rfl, by decide⟩,
   claim_c9 [Row.mk ("A1") ("http://x/y&id=42&z=1"),
       Row.mk ("A3") ("http://x/y&id=7&z=9")] [] [] 0
     [(42, "http://x/y&id=42&z=1"), (7, "http://x/y&id=7&z=9")]
     [(42, "A1"), (7, "A3")] 2 rfl (by decide)⟩

/-- C6: a catalog containing any malformed row makes the load raise a
fatal error, so the run produces no events at all — in particular no
HTTP GET is issued and no output file is opened or written. -/
theorem claim_c6 (rows : List Row) (resp : String → List (List Nat))
    (dirFiles : List String) (downloadData : Bool)
    (h : ∃ r ∈ rows, extract_drug_id r.link = none) :
    runMain rows resp dirFiles downloadData = ([], false)
    ∧ (∀ u, Ev.get u ∉ (runMain rows resp dirFiles downloadData).1)
    ∧ (∀ p ch, Ev.write p ch ∉ (runMain rows resp dirFiles downloadData).1)
    ∧ (∀ p, Ev.fileOpen p ∉ (runMain rows resp dirFiles downloadData).1) := by
  have h0 : loadCatalog rows [] [] 0 = none := loadCatalog_none rows [] [] 0 h
  have h1 : runMain rows resp dirFiles downloadData = ([], false) := by
    unfold runMain
    simp only [h0]
  refine ⟨h1, ?_, ?_, ?_⟩ <;> (intros; rw [h1]; simp)

theorem claim_c6_witness :
    (∃ r ∈ [Row.mk ("A1") ("http://x/nolink")],
      extract_drug_id r.link = none)
    ∧ (runMain [Row.mk ("A1") ("http://x/nolink")] (fun _ => []) [] true
        = ([], false)
       ∧ (∀ u, Ev.get u
          ∉ (runMain [Row.mk ("A1") ("http://x/nolink")] (fun _ => []) [] true).1)
       ∧ (∀ p ch, Ev.write p ch
          ∉ (runMain [Row.mk ("A1") ("http://x/nolink")] (fun _ => []) [] true).1)
       ∧ (∀ p, Ev.fileOpen p
          ∉ (runMain [Row.mk ("A1") ("http://x/nolink")] (fun _ => []) [] true).1)) :=
  ⟨by decide,
   claim_c6 [Row.mk ("A1") ("http://x/nolink")] (fun _ => []) [] true (by decide)⟩

/-! ## Decimal representation lemmas -/

theorem decValue_append (l : List Char) (c : Char) :
    decValue (l ++ [c]) = 10 * decValue l + (c.toNat - 48) := by
  unfold decValue
  rw [List.foldl_append]
  rfl

theorem digit_toNat (d : Nat) (h : d < 10) :
    (Char.ofNat (48 + d)).toNat = 48 + d := by
  interval_cases d <;> rfl

theorem digit_isDigit (d : Nat) (h : d < 10) :
    (Char.ofNat (48 + d)).isDigit = true := by
  interval_cases d <;> decide

theorem decValue_natDigits (n : Nat) : decValue (natDigits n) = n := by
  induction n using Nat.strong_induction_on with
  | _ n ih =>
    rw [natDigits]
    by_cases h : n < 10
    · rw [if_pos h]
      have ht := digit_toNat n h
      unfold decValue
      simp only [List.foldl_cons, List.foldl_nil]
      omega
    · rw [if_neg h]
      rw [decValue_append, ih (n / 10) (Nat.div_lt_self (by omega) (by omega)),
        digit_toNat (n % 10) (Nat.mod_lt n (by omega))]
      omega

theorem natDigits_inj (a b : Nat) (h : natDigits a = natDigits b) : a = b := by
  have ha := decValue_natDigits a
  rw [h, decValue_natDigits b] at ha
  omega

theorem natDigits_head (n : Nat) :
    ∃ c r, natDigits n = c :: r ∧ c.isDigit = true := by
  induction n using Nat.strong_induction_on with
  | _ n ih =>
    rw [natDigits]
    by_cases h : n < 10
    · rw [if_pos h]
      exact ⟨_, _, rfl, digit_isDigit n h⟩
    · rw [if_neg h]
      obtain ⟨c, r, he, hd⟩ := ih (n / 10) (Nat.div_lt_self (by omega) (by omega))
      rw [he]
      exact ⟨c, r ++ [Char.ofNat (48 + n % 10)], rfl, hd⟩

theorem intDigits_inj (a b : Int) (h : intDigits a = intDigits b) : a = b := by
  unfold intDigits at h
  by_cases ha : a < 0 <;> by_cases hb : b < 0
  · rw [if_pos ha, if_pos hb] at h
    simp only [List.cons.injEq] at h
    have := natDigits_inj _ _ h.2
    omega
  · rw [if_pos ha, if_neg hb] at h
    obtain ⟨c, r, he, hd⟩ := natDigits_head b.toNat
    rw [he] at h
    simp only [List.cons.injEq] at h
    rw [← h.1] at hd
    exact absurd hd (by decide)
  · rw [if_neg ha, if_pos hb] at h
    obtain ⟨c, r, he, hd⟩ := natDigits_head a.toNat
    rw [he] at h
    simp only [List.cons.injEq] at h
    rw [h.1] at hd
    exact absurd hd (by decide)
  · rw [if_neg ha, if_neg hb] at h
    have := natDigits_inj _ _ h
    omega

theorem htmlPath_inj : Function.Injective htmlPath := by
  intro a b h
  have hd : (htmlPath a).data = (htmlPath b).data := by rw [h]
  unfold htmlPath at hd
  rw [String.data_append, String.data_append, String.data_append,
    String.data_append] at hd
  have h1 := List.append_cancel_right hd
  have h2 := List.append_cancel_left h1
  exact intDigits_inj a b h2

/-! ## Download loop lemmas -/

theorem fetchLoop_cons (resp : String → List (List Nat))
    (drug_links : Dict String) (k : Int) (rest : List Int) (counter : Nat) :
    fetchLoop resp drug_links (k :: rest) counter
      = (Ev.get (urlOf drug_links k) :: Ev.fileOpen (htmlPath k)
          :: ((resp (urlOf drug_links k)).filter (fun c => c ≠ [])).map
              (Ev.write (htmlPath k)))
        ++ [Ev.print ("Saving Product Label Change: " ++ intStr k
              ++ " URL: " ++ urlOf drug_links k)]
        ++ [Ev.sleep WAIT_TIME]
        ++ (if (counter + 1) % 100 = 0
            then [Ev.print (">> " ++ natStr (counter + 1))] else [])
        ++ fetchLoop resp drug_links rest (counter + 1) := by
  simp only [fetchLoop, download_file]
  rw [writeLoop_events]

theorem opensOf_append (t1 t2 : List Ev) :
    opensOf (t1 ++ t2) = opensOf t1 ++ opensOf t2 :=
  List.filterMap_append t1 t2 _

theorem opensOf_block (u p : String) (l : List (List Nat)) :
    opensOf (Ev.get u :: Ev.fileOpen p :: l.map (Ev.write p)) = [p] := by
  induction l with
  | nil => rfl
  | cons c r ih => exact ih

theorem opensOf_milestone (cond : Prop) [Decidable cond] (s : String) :
    opensOf (if cond then [Ev.print s] else []) = [] := by
  split <;> rfl

theorem opensOf_fetchLoop (resp : String → List (List Nat))
    (drug_links : Dict String) (keys : List Int) :
    ∀ counter : Nat,
      opensOf (fetchLoop resp drug_links keys counter) = keys.map htmlPath := by
  induction keys with
  | nil => intro counter; rfl
  | cons k rest ih =>
    intro counter
    rw [fetchLoop_cons]
    simp only [opensOf_append]
    rw [ih, opensOf_block, opensOf_milestone]
    simp [opensOf]

theorem write_mem_fetchLoop (resp : String → List (List Nat))
    (drug_links : Dict String) (keys : List Int) :
    ∀ (counter : Nat) (p : String) (ch : List Nat),
      Ev.write p ch ∈ fetchLoop resp drug_links keys counter →
      p ∈ keys.map htmlPath := by
  induction keys with
  | nil => intro counter p ch h; cases h
  | cons k rest ih =>
    intro counter p ch h
    rw [fetchLoop_cons] at h
    rcases List.mem_append.mp h with hA | hrec
    · rcases List.mem_append.mp hA with hB | hi
      · rcases List.mem_append.mp hB with hC | hs
        · rcases List.mem_append.mp hC with hD | hp1
          · rcases List.mem_cons.mp hD with he | hD2
            · simp at he
            · rcases List.mem_cons.mp hD2 with he | hD3
              · simp at he
              · rcases List.mem_map.mp hD3 with ⟨c, _, he⟩
                injection he with hp _
                subst hp
                exact List.mem_map_of_mem htmlPath (List.mem_cons_self k rest)
          · simp at hp1
        · simp at hs
      · split at hi <;> simp at hi
    · have := ih (counter + 1) p ch hrec
      simp only [List.map_cons]
      exact List.mem_cons_of_mem _ this

/-- C5: over the keys of the catalog (which are unique), a complete
download loop opens — creating or truncating — exactly one file per key,
namely `DATA_PATH + str(drug_id) + ".html"`, those paths are pairwise
distinct, and every file-write event of the run targets one of those
paths, so no other file is written. -/
theorem claim_c5 (resp : String → List (List Nat)) (drug_links : Dict String)
    (h : (dictKeys drug_links).Nodup) :
    opensOf (fetchLoop resp drug_links (dictKeys drug_links) 0)
        = (dictKeys drug_links).map htmlPath
    ∧ ((dictKeys drug_links).map htmlPath).Nodup
    ∧ (∀ (p : String) (ch : List Nat),
        Ev.write p ch ∈ fetchLoop resp drug_links (dictKeys drug_links) 0 →
        p ∈ (dictKeys drug_links).map htmlPath) :=
  ⟨opensOf_fetchLoop resp drug_links (dictKeys drug_links) 0,
   List.Nodup.map htmlPath_inj h,
   fun p ch hm =>
     write_mem_fetchLoop resp drug_links (dictKeys drug_links) 0 p ch hm⟩

theorem claim_c5_witness :
    ((dictKeys [((42 : Int), "u42"), (7, "u7")]).Nodup)
    ∧ (opensOf (fetchLoop (fun _ => []) [((42 : Int), "u42"), (7, "u7")]
          (dictKeys [((42 : Int), "u42"), (7, "u7")]) 0)
        = (dictKeys [((42 : Int), "u42"), (7, "u7")]).map htmlPath
       ∧ ((dictKeys [((42 : Int), "u42"), (7, "u7")]).map htmlPath).Nodup
       ∧ (∀ (p : String) (ch : List Nat),
          Ev.write p ch ∈ fetchLoop (fun _ => []) [((42 : Int), "u42"), (7, "u7")]
            (dictKeys [((42 : Int), "u42"), (7, "u7")]) 0 →
          p ∈ (dictKeys [((42 : Int), "u42"), (7, "u7")]).map htmlPath)) :=
  ⟨by decide, claim_c5 (fun _ => []) [((42 : Int), "u42"), (7, "u7")] (by decide)⟩

theorem filter_netSleep_writes (p : String) (l : List (List Nat)) :
    (l.map (Ev.write p)).filter isNetSleep = l.map (Ev.write p) := by
  induction l with
  | nil => rfl
  | cons c r ih =>
    show Ev.write p c :: (r.map (Ev.write p)).filter isNetSleep = _
    rw [ih, List.map_cons]

theorem filter_netSleep_block (u p : String) (l : List (List Nat)) :
    (Ev.get u :: Ev.fileOpen p :: l.map (Ev.write p)).filter isNetSleep
      = Ev.get u :: (l.map (Ev.write p)) := by
  show Ev.get u :: (l.map (Ev.write p)).filter isNetSleep = _
  rw [filter_netSleep_writes]

theorem filter_netSleep_milestone (cond : Prop) [Decidable cond] (s : String) :
    (if cond then [Ev.print s] else []).filter isNetSleep = [] := by
  split <;> rfl

theorem filter_netSleep_fetchLoop (resp : String → List (List Nat))
    (drug_links : Dict String) (keys : List Int) :
    ∀ counter : Nat,
      (fetchLoop resp drug_links keys counter).filter isNetSleep
        = keys.flatMap (fun k =>
            Ev.get (urlOf drug_links k)
            :: (((resp (urlOf drug_links k)).filter (fun c => c ≠ [])).map
                  (Ev.write (htmlPath k))
                ++ [Ev.sleep WAIT_TIME])) := by
  induction keys with
  | nil => intro counter; rfl
  | cons k rest ih =>
    intro counter
    rw [fetchLoop_cons]
    simp only [List.filter_append]
    rw [ih, filter_netSleep_block, filter_netSleep_milestone]
    show Ev.get (urlOf drug_links k) :: _ ++ [] ++ [Ev.sleep WAIT_TIME] ++ [] ++ _ = _
    simp [List.flatMap_cons]

theorem filter_print_writes (p : String) (l : List (List Nat)) :
    (l.map (Ev.write p)).filter isPrintEv = [] := by
  induction l with
  | nil => rfl
  | cons c r ih => exact ih

theorem filter_print_block (u p : String) (l : List (List Nat)) :
    (Ev.get u :: Ev.fileOpen p :: l.map (Ev.write p)).filter isPrintEv = [] :=
  filter_print_writes p l

theorem filter_print_milestone (cond : Prop) [Decidable cond] (s : String) :
    (if cond then [Ev.print s] else []).filter isPrintEv
      = if cond then [Ev.print s] else [] := by
  split <;> rfl

theorem filter_print_fetchLoop (resp : String → List (List Nat))
    (drug_links : Dict String) (keys : List Int) :
    ∀ counter : Nat,
      (fetchLoop resp drug_links keys counter).filter isPrintEv
        = (List.enumFrom counter keys).flatMap (fun q =>
            Ev.print ("Saving Product Label Change: " ++ intStr q.2
              ++ " URL: " ++ urlOf drug_links q.2)
            :: (if (q.1 + 1) % 100 = 0
                then [Ev.print (">> " ++ natStr (q.1 + 1))] else [])) := by
  induction keys with
  | nil => intro counter; rfl
  | cons k rest ih =>
    intro counter
    rw [fetchLoop_cons]
    simp only [List.filter_append]
    rw [ih, filter_print_block, filter_print_milestone]
    show ([] : List Ev) ++ [Ev.print _] ++ [] ++ _ ++ _ = _
    simp [List.flatMap_cons, List.enumFrom]

/-- C7: in the download loop the only network, file-write and sleep
events, in order, are: for each identifier its GET, then its writes, then
one sleep of the fixed `WAIT_TIME` (0.2 seconds, i.e. 1/5); hence the GET
of the next identifier is always preceded by the sleep that follows the
previous identifier's writes. -/
theorem claim_c7 (resp : String → List (List Nat)) (drug_links : Dict String)
    (keys : List Int) (counter : Nat) :
    WAIT_TIME = 1 / 5
    ∧ (fetchLoop resp drug_links keys counter).filter isNetSleep
      = keys.flatMap (fun k =>
          Ev.get (urlOf drug_links k)
          :: (((resp (urlOf drug_links k)).filter (fun c => c ≠ [])).map
                (Ev.write (htmlPath k))
              ++ [Ev.sleep WAIT_TIME])) :=
  ⟨by norm_num [WAIT_TIME],
   filter_netSleep_fetchLoop resp drug_links keys counter⟩

/-- C8: the download loop prints exactly one progress line per completed
download, carrying the identifier and its URL, and immediately after the
`i+1`-st completed download additionally prints a milestone line exactly
when the completed count `i+1` is a (positive) multiple of 100. -/
theorem claim_c8 (resp : String → List (List Nat)) (drug_links : Dict String)
    (keys : List Int) :
    (fetchLoop resp drug_links keys 0).filter isPrintEv
      = keys.enum.flatMap (fun q =>
          Ev.print ("Saving Product Label Change: " ++ intStr q.2
            ++ " URL: " ++ urlOf drug_links q.2)
          :: (if (q.1 + 1) % 100 = 0
              then [Ev.print (">> " ++ natStr (q.1 + 1))] else [])) := by
  rw [List.enum_eq_enumFrom]
  exact filter_print_fetchLoop resp drug_links keys 0

/-! ## Completeness checker -/

theorem missing_ne_skip (a b : String) :
    ("There are some files missing, expected: " ++ a ++ " Found: " ++ b)
      ≠ "Skippping, data already downloaded!" := by
  intro h
  have hd := congrArg String.data h
  rw [String.data_append, String.data_append, String.data_append] at hd
  have h1 : ("There are some files missing, expected: ").data
      = 'T' :: ("here are some files missing, expected: ").data := rfl
  have h2 : ("Skippping, data already downloaded!").data
      = 'S' :: ("kippping, data already downloaded!").data := rfl
  rw [h1, h2, List.cons_append, List.cons_append, List.cons_append] at hd
  injection hd with hc _
  exact absurd hc (by decide)

/-- C3: in verify-only mode the check is a pure count comparison — it
reports a match (the success prints) exactly when the number of directory
entries equals the number of catalog keys, and its outcome is identical
for any two directory listings of equal length, regardless of whether the
entry names correspond to the expected identifiers. -/
theorem claim_c3 (drug_links : Dict String) (files files' : List String)
    (h : files.length = files'.length) :
    (checkerMatch files drug_links = true
      ↔ files.length = (dictKeys drug_links).length)
    ∧ (Ev.print ("Skippping, data already downloaded!")
        ∈ checker files drug_links
      ↔ checkerMatch files drug_links = true)
    ∧ checker files' drug_links = checker files drug_links := by
  refine ⟨?_, ?_, ?_⟩
  · unfold checkerMatch
    rw [beq_iff_eq]
    exact eq_comm
  · unfold checker
    by_cases hm : checkerMatch files drug_links = true
    · rw [if_pos hm]
      simp [hm]
    · rw [if_neg hm]
      simp only [List.mem_singleton]
      constructor
      · intro he
        injection he with hs
        exact absurd hs.symm (missing_ne_skip _ _)
      · intro ht
        exact absurd ht hm
  · unfold checker checkerMatch
    rw [← h]

theorem claim_c3_witness :
    ((["a"] : List String).length = (["b"] : List String).length)
    ∧ ((checkerMatch ["a"] [((1 : Int), "u")] = true
        ↔ (["a"] : List String).length = (dictKeys [((1 : Int), "u")]).length)
       ∧ (Ev.print ("Skippping, data already downloaded!")
           ∈ checker ["a"] [((1 : Int), "u")]
         ↔ checkerMatch ["a"] [((1 : Int), "u")] = true)
       ∧ checker ["b"] [((1 : Int), "u")] = checker ["a"] [((1 : Int), "u")]) :=
  ⟨by decide, claim_c3 [((1 : Int), "u")] ["a"] ["b"] (by decide)⟩
